import Mathlib

/-!
Verification of the pdf-rag-on-eks ingestion and query pipeline.

This file gives a shallow embedding, in Lean 4, of the core algorithms of the
repository:

* `services/ingestion/app/chunker.py` — sliding token-window chunking,
* `services/ingestion/app/pdf_parser.py` — page extraction and content hashing,
* `services/ingestion/app/embedder.py` — batched embedding client,
* `services/ingestion/app/vector_store.py` — deterministic point ids and
  batched upsert,
* `services/chat-api/app/rag_pipeline.py` — prompt assembly and query
  orchestration,
* `services/chat-api/app/main.py` — the `/health` and `/chat` endpoints.

Machine-level collaborators (the tiktoken encoder/decoder, the embedding
server, the vector database, the LLM) are modelled as explicit function
parameters; cryptographic primitives used by the code (SHA-256 for content
hashes, SHA-1 inside UUIDv5 point ids) are implemented here over `Nat` byte
lists, faithful to the standard algorithms invoked by Python's `hashlib` and
`uuid` modules, and validated against published test vectors.
-/

/-! ## Generic slice batching

Python loops of the shape `for i in range(0, len(xs), B): batch = xs[i:i+B]`
appear in `embedder.py` (`batch_size`), `vector_store.py` (batches of 100) and
in the block decomposition of hash inputs.  `sliceBatches xs B` is that loop:
the list of consecutive slices of size at most `B`.  (For `B = 0` the Python
`range` raises; we return `[]`, and every theorem that touches this case
assumes `1 ≤ B`.) -/

def sliceBatchesFuel : Nat → List α → Nat → List (List α)
  | 0, _, _ => []
  | _, [], _ => []
  | _ + 1, _ :: _, 0 => []
  | fuel + 1, x :: xs, B + 1 =>
      (x :: xs).take (B + 1) :: sliceBatchesFuel fuel ((x :: xs).drop (B + 1)) (B + 1)

def sliceBatches (xs : List α) (B : Nat) : List (List α) :=
  sliceBatchesFuel xs.length xs B

/-- The fuel argument is irrelevant as soon as it covers the list length
(one element is consumed per slice, so `xs.length` steps always suffice). -/
theorem sliceBatchesFuel_congr :
    ∀ (f1 f2 : Nat) (xs : List α) (B : Nat), xs.length ≤ f1 → xs.length ≤ f2 →
      sliceBatchesFuel f1 xs B = sliceBatchesFuel f2 xs B := by
  intro f1
  induction f1 with
  | zero =>
    intro f2 xs B h1 _
    have hxs : xs = [] := List.length_eq_zero.mp (Nat.le_zero.mp h1)
    subst hxs
    cases f2 <;> rfl
  | succ f1 ih =>
    intro f2 xs B h1 h2
    match xs, B, f2 with
    | [], _, 0 => rfl
    | [], _, _ + 1 => rfl
    | x :: xs, _, 0 => simp at h2
    | x :: xs, 0, f2 + 1 => rfl
    | x :: xs, B + 1, f2 + 1 =>
      simp only [sliceBatchesFuel]
      rw [ih f2 ((x :: xs).drop (B + 1)) (B + 1)
        (by simp [List.length_drop] at h1 ⊢; omega)
        (by simp [List.length_drop] at h2 ⊢; omega)]

theorem sliceBatches_nil (B : Nat) : sliceBatches ([] : List α) B = [] := rfl

theorem sliceBatches_cons (x : α) (xs : List α) (B : Nat) (hB : B ≠ 0) :
    sliceBatches (x :: xs) B =
      (x :: xs).take B :: sliceBatches ((x :: xs).drop B) B := by
  match B, hB with
  | B + 1, _ =>
    show sliceBatchesFuel (xs.length + 1) (x :: xs) (B + 1) = _
    simp only [sliceBatchesFuel]
    rw [sliceBatchesFuel_congr xs.length ((x :: xs).drop (B + 1)).length
      ((x :: xs).drop (B + 1)) (B + 1)
      (by simp [List.length_drop]) le_rfl]
    rfl

/-- The slices concatenate back to the original list. -/
theorem sliceBatches_flatten (xs : List α) (B : Nat) (hB : B ≠ 0) :
    (sliceBatches xs B).flatten = xs := by
  suffices H : ∀ n (ys : List α), ys.length ≤ n → (sliceBatches ys B).flatten = ys by
    exact H xs.length xs le_rfl
  intro n
  induction n with
  | zero =>
    intro ys hy
    have : ys = [] := List.length_eq_zero.mp (Nat.le_zero.mp hy)
    simp [this, sliceBatches_nil]
  | succ n ih =>
    intro ys hy
    match ys with
    | [] => simp [sliceBatches_nil]
    | y :: ys =>
      rw [sliceBatches_cons _ _ _ hB, List.flatten_cons,
        ih ((y :: ys).drop B) (by simp [List.length_drop] at hy ⊢; omega),
        List.take_append_drop]

/-- Every slice has size at most `B`. -/
theorem sliceBatches_size_le (xs : List α) (B : Nat) :
    ∀ b ∈ sliceBatches xs B, b.length ≤ B := by
  suffices H : ∀ n (ys : List α), ys.length ≤ n →
      ∀ b ∈ sliceBatches ys B, b.length ≤ B by
    exact H xs.length xs le_rfl
  intro n
  induction n with
  | zero =>
    intro ys hy
    have : ys = [] := List.length_eq_zero.mp (Nat.le_zero.mp hy)
    simp [this, sliceBatches_nil]
  | succ n ih =>
    intro ys hy
    match ys with
    | [] => simp [sliceBatches_nil]
    | y :: ys =>
      intro b hb
      by_cases hB : B = 0
      · subst hB; simp [sliceBatches, sliceBatchesFuel] at hb
      rw [sliceBatches_cons _ _ _ hB] at hb
      rcases List.mem_cons.mp hb with hb | hb
      · subst hb; simp [List.length_take]
      · exact ih ((y :: ys).drop B)
          (by simp [List.length_drop] at hy ⊢; omega) b hb

/-- The number of slices is `⌈xs.length / B⌉ = (xs.length + B - 1) / B`,
exactly the `total_batches` computed in `embedder.py`. -/
theorem sliceBatches_length (xs : List α) (B : Nat) (hB : B ≠ 0) :
    (sliceBatches xs B).length = (xs.length + B - 1) / B := by
  suffices H : ∀ n (ys : List α), ys.length ≤ n →
      (sliceBatches ys B).length = (ys.length + B - 1) / B by
    exact H xs.length xs le_rfl
  intro n
  induction n with
  | zero =>
    intro ys hy
    have hys : ys = [] := List.length_eq_zero.mp (Nat.le_zero.mp hy)
    subst hys
    have hz : (B - 1) / B = 0 := Nat.div_eq_of_lt (by omega)
    rw [sliceBatches_nil]
    simp [hz]
  | succ n ih =>
    intro ys hy
    match ys with
    | [] =>
      have hz : (B - 1) / B = 0 := Nat.div_eq_of_lt (by omega)
      rw [sliceBatches_nil]
      simp [hz]
    | y :: ys =>
      rw [sliceBatches_cons _ _ _ hB, List.length_cons,
        ih ((y :: ys).drop B) (by simp [List.length_drop] at hy ⊢; omega)]
      simp only [List.length_drop]
      have hpos : 0 < (y :: ys).length := by simp
      rcases Nat.lt_or_ge ((y :: ys).length) B with hc | hc
      · have h1 : (y :: ys).length - B = 0 := by omega
        rw [h1]
        have h2 : ((y :: ys).length + B - 1) / B = 1 := by
          apply Nat.div_eq_of_lt_le <;> omega
        have hz : (B - 1) / B = 0 := Nat.div_eq_of_lt (by omega)
        rw [h2]
        simp [hz]
      · have h1 : (y :: ys).length - B + B - 1 = (y :: ys).length - 1 := by omega
        have h2 : (y :: ys).length + B - 1 = ((y :: ys).length - 1) + B := by omega
        rw [h1, h2, Nat.add_div_right _ (Nat.pos_of_ne_zero hB)]

/-! ## Bytes, UTF-8 and hex rendering

`pdf_parser.py` hashes `content.encode("utf-8")` with `hashlib.sha256` and
stores the `hexdigest`; `vector_store.py` derives point ids with
`uuid.uuid5`, which is SHA-1 over the namespace bytes plus the UTF-8 name.
Bytes are modelled as `Nat` values below 256. -/

def utf8Bytes (c : Char) : List Nat :=
  let n := c.toNat
  if n < 0x80 then [n]
  else if n < 0x800 then [0xC0 ||| (n >>> 6), 0x80 ||| (n &&& 0x3F)]
  else if n < 0x10000 then
    [0xE0 ||| (n >>> 12), 0x80 ||| ((n >>> 6) &&& 0x3F), 0x80 ||| (n &&& 0x3F)]
  else
    [0xF0 ||| (n >>> 18), 0x80 ||| ((n >>> 12) &&& 0x3F),
     0x80 ||| ((n >>> 6) &&& 0x3F), 0x80 ||| (n &&& 0x3F)]

/-- UTF-8 encoding of a string, as Python's `str.encode("utf-8")`. -/
def strBytes (s : String) : List Nat := (s.data.map utf8Bytes).flatten

/-- Lowercase hex digit, as used by `hexdigest()` and `str(UUID)`. -/
def hexDigit (n : Nat) : Char :=
  match n with
  | 0 => '0'
  | 1 => '1'
  | 2 => '2'
  | 3 => '3'
  | 4 => '4'
  | 5 => '5'
  | 6 => '6'
  | 7 => '7'
  | 8 => '8'
  | 9 => '9'
  | 10 => 'a'
  | 11 => 'b'
  | 12 => 'c'
  | 13 => 'd'
  | 14 => 'e'
  | _ => 'f'

def byteHex (b : Nat) : List Char := [hexDigit (b / 16 % 16), hexDigit (b % 16)]

def bytesHex (bs : List Nat) : String := ⟨(bs.map byteHex).flatten⟩

/-! ## SHA-2 / SHA-1 core -/

def word32be (bs : List Nat) : Nat :=
  (bs.getD 0 0) <<< 24 ||| (bs.getD 1 0) <<< 16 ||| (bs.getD 2 0) <<< 8 ||| bs.getD 3 0

def be32 (w : Nat) : List Nat :=
  [(w >>> 24) &&& 0xFF, (w >>> 16) &&& 0xFF, (w >>> 8) &&& 0xFF, w &&& 0xFF]

def be64 (w : Nat) : List Nat := be32 ((w >>> 32) &&& 0xFFFFFFFF) ++ be32 (w &&& 0xFFFFFFFF)

/-- Merkle–Damgård padding shared by SHA-1 and SHA-256: a `0x80` byte, zeros
to 56 mod 64, then the bit length as a 64-bit big-endian integer. -/
def padMessage (msg : List Nat) : List Nat :=
  msg ++ 0x80 :: List.replicate ((119 - msg.length % 64) % 64) 0 ++ be64 (8 * msg.length)

def msgBlocks (msg : List Nat) : List (List Nat) := sliceBatches (padMessage msg) 64

def blockWords (block : List Nat) : List Nat := (sliceBatches block 4).map word32be

def rotr32 (x n : Nat) : Nat := ((x >>> n) ||| (x <<< (32 - n))) % 2 ^ 32

def rotl32 (x n : Nat) : Nat := ((x <<< n) ||| (x >>> (32 - n))) % 2 ^ 32

/-- Largest `r` with `r ^ 3 ≤ n`, by fuelled binary search (used only to
derive the SHA-256 round constants from the first 64 primes). -/
def icbrtAux (n : Nat) : Nat → Nat → Nat → Nat
  | lo, _, 0 => lo
  | lo, hi, fuel + 1 =>
    if hi ≤ lo + 1 then lo
    else
      let mid := (lo + hi) / 2
      if mid ^ 3 ≤ n then icbrtAux n mid hi fuel else icbrtAux n lo mid fuel

def icbrt (n : Nat) : Nat := icbrtAux n 0 (n + 2) 200

/-- Largest `r` with `r ^ 2 ≤ n`, by the same fuelled binary search (used only
to derive the SHA-256 initial state from the first 8 primes). -/
def isqrtAux (n : Nat) : Nat → Nat → Nat → Nat
  | lo, _, 0 => lo
  | lo, hi, fuel + 1 =>
    if hi ≤ lo + 1 then lo
    else
      let mid := (lo + hi) / 2
      if mid ^ 2 ≤ n then isqrtAux n mid hi fuel else isqrtAux n lo mid fuel

def isqrt (n : Nat) : Nat := isqrtAux n 0 (n + 2) 200

/-- The first 64 primes; SHA-256 draws its constants from their roots. -/
def primes64 : List Nat :=
  [2, 3, 5, 7, 11, 13, 17, 19, 23, 29,
   31, 37, 41, 43, 47, 53, 59, 61, 67, 71,
   73, 79, 83, 89, 97, 101, 103, 107, 109, 113,
   127, 131, 137, 139, 149, 151, 157, 163, 167, 173,
   179, 181, 191, 193, 197, 199, 211, 223, 227, 229,
   233, 239, 241, 251, 257, 263, 269, 271, 277, 281,
   283, 293, 307, 311]

/-- SHA-256 round constants: fractional cube-root bits of the primes. -/
def K256 : List Nat := primes64.map (fun p => icbrt (p <<< 96) % 2 ^ 32)

/-- SHA-256 initial state: fractional square-root bits of the first 8 primes. -/
def H256 : List Nat := (primes64.take 8).map (fun p => isqrt (p <<< 64) % 2 ^ 32)

def sha256Schedule (block : List Nat) : List Nat :=
  (List.range 48).foldl
    (fun w j =>
      let i := j + 16
      let x15 := w.getD (i - 15) 0
      let x2 := w.getD (i - 2) 0
      let s0 := rotr32 x15 7 ^^^ rotr32 x15 18 ^^^ (x15 >>> 3)
      let s1 := rotr32 x2 17 ^^^ rotr32 x2 19 ^^^ (x2 >>> 10)
      w ++ [(w.getD (i - 16) 0 + s0 + w.getD (i - 7) 0 + s1) % 2 ^ 32])
    (blockWords block)

def sha256Compress (hs : List Nat) (block : List Nat) : List Nat :=
  let w := sha256Schedule block
  let step := fun (st : Nat × Nat × Nat × Nat × Nat × Nat × Nat × Nat) (i : Nat) =>
    match st with
    | (a, b, c, d, e, f, g, hh) =>
      let s1 := rotr32 e 6 ^^^ rotr32 e 11 ^^^ rotr32 e 25
      let ch := (e &&& f) ^^^ ((e ^^^ 0xFFFFFFFF) &&& g)
      let t1 := (hh + s1 + ch + K256.getD i 0 + w.getD i 0) % 2 ^ 32
      let s0 := rotr32 a 2 ^^^ rotr32 a 13 ^^^ rotr32 a 22
      let maj := (a &&& b) ^^^ (a &&& c) ^^^ (b &&& c)
      let t2 := (s0 + maj) % 2 ^ 32
      ((t1 + t2) % 2 ^ 32, a, b, c, (d + t1) % 2 ^ 32, e, f, g)
  match (List.range 64).foldl step
      (hs.getD 0 0, hs.getD 1 0, hs.getD 2 0, hs.getD 3 0,
       hs.getD 4 0, hs.getD 5 0, hs.getD 6 0, hs.getD 7 0) with
  | (a, b, c, d, e, f, g, hh) =>
      [(hs.getD 0 0 + a) % 2 ^ 32, (hs.getD 1 0 + b) % 2 ^ 32,
       (hs.getD 2 0 + c) % 2 ^ 32, (hs.getD 3 0 + d) % 2 ^ 32,
       (hs.getD 4 0 + e) % 2 ^ 32, (hs.getD 5 0 + f) % 2 ^ 32,
       (hs.getD 6 0 + g) % 2 ^ 32, (hs.getD 7 0 + hh) % 2 ^ 32]

def sha256Bytes (msg : List Nat) : List Nat :=
  (((msgBlocks msg).foldl sha256Compress H256).map be32).flatten

/-- Model of `hashlib.sha256(s.encode("utf-8")).hexdigest()`. -/
def sha256Hex (s : String) : String := bytesHex (sha256Bytes (strBytes s))

def sha1Schedule (block : List Nat) : List Nat :=
  (List.range 64).foldl
    (fun w j =>
      let i := j + 16
      w ++ [rotl32 (w.getD (i - 3) 0 ^^^ w.getD (i - 8) 0 ^^^
                    w.getD (i - 14) 0 ^^^ w.getD (i - 16) 0) 1])
    (blockWords block)

def sha1K (i : Nat) : Nat :=
  if i < 20 then 0x5A827999
  else if i < 40 then 0x6ED9EBA1
  else if i < 60 then 0x8F1BBCDC
  else 0xCA62C1D6

def sha1F (i b c d : Nat) : Nat :=
  if i < 20 then (b &&& c) ||| ((b ^^^ 0xFFFFFFFF) &&& d)
  else if i < 40 then b ^^^ c ^^^ d
  else if i < 60 then (b &&& c) ||| (b &&& d) ||| (c &&& d)
  else b ^^^ c ^^^ d

def H1init : List Nat := [0x67452301, 0xEFCDAB89, 0x98BADCFE, 0x10325476, 0xC3D2E1F0]

def sha1Compress (hs : List Nat) (block : List Nat) : List Nat :=
  let w := sha1Schedule block
  let step := fun (st : Nat × Nat × Nat × Nat × Nat) (i : Nat) =>
    match st with
    | (a, b, c, d, e) =>
      let t := (rotl32 a 5 + sha1F i b c d + e + sha1K i + w.getD i 0) % 2 ^ 32
      (t, a, rotl32 b 30, c, d)
  match (List.range 80).foldl step
      (hs.getD 0 0, hs.getD 1 0, hs.getD 2 0, hs.getD 3 0, hs.getD 4 0) with
  | (a, b, c, d, e) =>
      [(hs.getD 0 0 + a) % 2 ^ 32, (hs.getD 1 0 + b) % 2 ^ 32,
       (hs.getD 2 0 + c) % 2 ^ 32, (hs.getD 3 0 + d) % 2 ^ 32,
       (hs.getD 4 0 + e) % 2 ^ 32]

def sha1Bytes (msg : List Nat) : List Nat :=
  (((msgBlocks msg).foldl sha1Compress H1init).map be32).flatten

/-! ## UUID version 5 (`uuid.uuid5`) -/

/-- The 16 bytes of `uuid.NAMESPACE_URL = 6ba7b811-9dad-11d1-80b4-00c04fd430c8`. -/
def NAMESPACE_URL : List Nat :=
  [0x6b, 0xa7, 0xb8, 0x11, 0x9d, 0xad, 0x11, 0xd1,
   0x80, 0xb4, 0x00, 0xc0, 0x4f, 0xd4, 0x30, 0xc8]

/-- The 16 bytes of `uuid.NAMESPACE_DNS = 6ba7b810-9dad-11d1-80b4-00c04fd430c8`
(used only for the published `uuid5` test vector). -/
def NAMESPACE_DNS : List Nat :=
  [0x6b, 0xa7, 0xb8, 0x10, 0x9d, 0xad, 0x11, 0xd1,
   0x80, 0xb4, 0x00, 0xc0, 0x4f, 0xd4, 0x30, 0xc8]

/-- Model of `str(UUID(bytes=d))`: hex of the 16 bytes in 8-4-4-4-12 groups. -/
def uuidFromBytes (d : List Nat) : String :=
  bytesHex (d.take 4) ++ "-" ++ bytesHex ((d.drop 4).take 2) ++ "-" ++
  bytesHex ((d.drop 6).take 2) ++ "-" ++ bytesHex ((d.drop 8).take 2) ++ "-" ++
  bytesHex (d.drop 10)

/-- Model of `uuid.uuid5(ns, name)`: SHA-1 of namespace bytes plus UTF-8 name,
truncated to 16 bytes, with the version nibble forced to 5 and the RFC 4122
variant bits forced into byte 8. -/
def uuid5 (ns : List Nat) (name : String) : String :=
  let d0 := (sha1Bytes (ns ++ strBytes name)).take 16
  let d1 := d0.set 6 ((d0.getD 6 0 &&& 0x0F) ||| 0x50)
  let d2 := d1.set 8 ((d1.getD 8 0 &&& 0x3F) ||| 0x80)
  uuidFromBytes d2

set_option maxRecDepth 100000

/-- FIPS 180 test vector validating the SHA-256 implementation. -/
theorem sha256Hex_abc :
    sha256Hex "abc" =
      "ba7816bf8f01cfea414140de5dae2223b00361a396177a9cb410ff61f20015ad" := by
  decide

/-- FIPS 180 test vector validating the SHA-1 implementation. -/
theorem sha1_abc :
    bytesHex (sha1Bytes (strBytes "abc")) =
      "a9993e364706816aba3e25717850c26c9cd0d89d" := by
  decide

/-- The `uuid5` example from the Python standard library documentation. -/
theorem uuid5_python_org :
    uuid5 NAMESPACE_DNS "python.org" = "886313e1-3b8a-5372-9b90-0c9aee199e5d" := by
  decide

/-! ## `pdf_parser.py` — pages and content hashes

The PDF-to-Markdown extractor (`pymupdf4llm.to_markdown`) is an external
collaborator; we model its output as the list of per-page `"text"` values and
embed everything `parse_pdf` does with them. -/

/-- A page extracted from a PDF (`Document` dataclass). -/
structure Document where
  content : String
  page_number : Nat
  source : String
  content_hash : String
deriving DecidableEq, Repr

/-- The `Document` constructor including `__post_init__`: a missing (falsy)
`content_hash` is computed as the SHA-256 hex digest of the UTF-8 content. -/
def mkDocument (content : String) (page_number : Nat) (source : String)
    (content_hash : String) : Document :=
  if content_hash = "" then
    { content := content, page_number := page_number, source := source,
      content_hash := sha256Hex content }
  else
    { content := content, page_number := page_number, source := source,
      content_hash := content_hash }

/-- Model of `parse_pdf`, given the extractor's per-page texts: strip each page, skip
the ones that are empty after stripping, and build a `Document` with a
1-indexed page number, the bare filename as source, and a computed hash
(`Document(...)` is called without `content_hash`, so it defaults to `""`). -/
def parse_pdf (pdf_filename : String) (pageTexts : List String) : List Document :=
  pageTexts.enum.filterMap (fun p =>
    let page_text := p.2.trim
    if page_text = "" then none
    else some (mkDocument page_text (p.1 + 1) pdf_filename ""))

/-! ## `chunker.py` — sliding token-window chunking

The tokenizer (`tiktoken` `cl100k_base`) is an external collaborator, passed
in as `encode` / `decode` functions; token ids are opaque (`α`).  The loop

```
for start in range(0, len(token_ids), step):
    window = token_ids[start : start + chunk_size]
    ...decode...
    if len(window) < 20: continue        # drop tiny windows
    ...emit Chunk(chunk_index)...; chunk_index += 1
    if start + chunk_size >= len(token_ids): break
```

is embedded as `pageWindowsFuel`, fuelled structural recursion on the number
of remaining iterations (`len(token_ids) + 1` steps always suffice for
`step ≥ 1`, since `start` grows by `step` each iteration); each element of the
result is the pair `(chunk_index, window)` of an emitted chunk. -/

def pageWindowsFuel (tokenIds : List α) (chunk_size step : Nat) :
    Nat → Nat → Nat → List (Nat × List α)
  | _, _, 0 => []
  | start, chunk_index, fuel + 1 =>
    if start < tokenIds.length then
      let window := (tokenIds.drop start).take chunk_size
      if window.length < 20 then
        pageWindowsFuel tokenIds chunk_size step (start + step) chunk_index fuel
      else
        (chunk_index, window) ::
          (if tokenIds.length ≤ start + chunk_size then []
           else pageWindowsFuel tokenIds chunk_size step (start + step) (chunk_index + 1) fuel)
    else []

/-- The per-document pass of `chunk_documents`: all emitted
`(chunk_index, window)` pairs for one page's token ids. -/
def chunk_page_windows (tokenIds : List α) (chunk_size step : Nat) :
    List (Nat × List α) :=
  pageWindowsFuel tokenIds chunk_size step 0 0 (tokenIds.length + 1)

/-- A chunk ready for embedding (`Chunk` dataclass; the `metadata` dict has
the fixed key set `page_number`, `source`, `content_hash`, `chunk_index`,
flattened into fields here). -/
structure Chunk where
  text : String
  page_number : Nat
  source : String
  content_hash : String
  chunk_index : Nat
deriving DecidableEq, Repr

/-- Model of `chunk_documents`: for each document, encode its content, slide the
window, decode each emitted window and attach the parent document's
metadata.  (The `len(token_ids) == 0: continue` guard in the source is the
empty-output case of the window loop.) -/
def chunk_documents (encode : String → List Nat) (decode : List Nat → String)
    (documents : List Document) (chunk_size chunk_overlap : Nat) : List Chunk :=
  let step := chunk_size - chunk_overlap
  (documents.map (fun document =>
    (chunk_page_windows (encode document.content) chunk_size step).map
      (fun c =>
        { text := decode c.2
          page_number := document.page_number
          source := document.source
          content_hash := document.content_hash
          chunk_index := c.1 }))).flatten


/-! ### Unfolding equations for the window loop -/

theorem pageWindowsFuel_zero (t : List α) (cs st start idx : Nat) :
    pageWindowsFuel t cs st start idx 0 = [] := rfl

theorem pageWindowsFuel_stop (t : List α) (cs st start idx fuel : Nat)
    (h : ¬ start < t.length) :
    pageWindowsFuel t cs st start idx (fuel + 1) = [] := by
  simp only [pageWindowsFuel]
  rw [if_neg h]

theorem pageWindowsFuel_skip (t : List α) (cs st start idx fuel : Nat)
    (h1 : start < t.length) (h2 : ((t.drop start).take cs).length < 20) :
    pageWindowsFuel t cs st start idx (fuel + 1) =
      pageWindowsFuel t cs st (start + st) idx fuel := by
  simp only [pageWindowsFuel]
  rw [if_pos h1, if_pos h2]

theorem pageWindowsFuel_emit_break (t : List α) (cs st start idx fuel : Nat)
    (h1 : start < t.length) (h2 : ¬ ((t.drop start).take cs).length < 20)
    (h3 : t.length ≤ start + cs) :
    pageWindowsFuel t cs st start idx (fuel + 1) = [(idx, (t.drop start).take cs)] := by
  simp only [pageWindowsFuel]
  rw [if_pos h1, if_neg h2, if_pos h3]

theorem pageWindowsFuel_emit_cont (t : List α) (cs st start idx fuel : Nat)
    (h1 : start < t.length) (h2 : ¬ ((t.drop start).take cs).length < 20)
    (h3 : ¬ t.length ≤ start + cs) :
    pageWindowsFuel t cs st start idx (fuel + 1) =
      (idx, (t.drop start).take cs) ::
        pageWindowsFuel t cs st (start + st) (idx + 1) fuel := by
  simp only [pageWindowsFuel]
  rw [if_pos h1, if_neg h2, if_neg h3]

theorem window_length (t : List α) (start cs : Nat) :
    ((t.drop start).take cs).length = min cs (t.length - start) := by
  simp [List.length_take, List.length_drop]

/-- Window sizes shrink as `start` grows, so once a window falls below the
20-token threshold every later window does too and nothing further is
emitted (in the source, the loop keeps `continue`-ing to the end). -/
theorem pageWindowsFuel_all_small (t : List α) (cs st : Nat) :
    ∀ fuel start idx, min cs (t.length - start) < 20 →
      pageWindowsFuel t cs st start idx fuel = [] := by
  intro fuel
  induction fuel with
  | zero => intro start idx _; rfl
  | succ fuel ih =>
    intro start idx h
    by_cases h1 : start < t.length
    · have h2 : ((t.drop start).take cs).length < 20 := by
        rw [window_length]; exact h
      rw [pageWindowsFuel_skip _ _ _ _ _ _ h1 h2]
      exact ih (start + st) idx (by omega)
    · exact pageWindowsFuel_stop _ _ _ _ _ _ h1

/-- Closed form of the window loop: the emitted chunks are windows at the
consecutive starts `start, start + step, start + 2·step, …`, indexed
consecutively from `idx`; every emitted window but the last one ends
strictly before the end of the token list, and every emitted window has at
least 20 tokens. -/
theorem pageWindowsFuel_structure (t : List α) (cs st : Nat) :
    ∀ fuel start idx, ∃ m,
      pageWindowsFuel t cs st start idx fuel =
        (List.range m).map (fun j => (idx + j, (t.drop (start + j * st)).take cs)) ∧
      (∀ j, j + 1 < m → start + j * st + cs < t.length) ∧
      (∀ j, j < m → 20 ≤ min cs (t.length - (start + j * st))) := by
  intro fuel
  induction fuel with
  | zero =>
    intro start idx
    exact ⟨0, by simp [pageWindowsFuel_zero], by omega, by omega⟩
  | succ fuel ih =>
    intro start idx
    by_cases h1 : start < t.length
    · by_cases h2 : ((t.drop start).take cs).length < 20
      · refine ⟨0, ?_, by omega, by omega⟩
        rw [pageWindowsFuel_skip _ _ _ _ _ _ h1 h2]
        simp only [List.range_zero, List.map_nil]
        exact pageWindowsFuel_all_small t cs st fuel (start + st) idx
          (by rw [window_length] at h2; omega)
      · by_cases h3 : t.length ≤ start + cs
        · refine ⟨1, ?_, by omega, ?_⟩
          · rw [pageWindowsFuel_emit_break _ _ _ _ _ _ h1 h2 h3,
              show (1 : Nat) = 0 + 1 from rfl, List.range_succ]
            simp
          · intro j hj
            have hj0 : j = 0 := by omega
            subst hj0
            rw [window_length] at h2
            simp only [Nat.zero_mul, Nat.add_zero]
            omega
        · obtain ⟨m, hm, hend, hmin⟩ := ih (start + st) (idx + 1)
          refine ⟨m + 1, ?_, ?_, ?_⟩
          · rw [pageWindowsFuel_emit_cont _ _ _ _ _ _ h1 h2 h3, hm,
              List.range_succ_eq_map]
            simp only [List.map_cons, List.map_map]
            refine congrArg₂ _ (by simp) ?_
            refine List.map_congr_left ?_
            intro j _
            simp only [Function.comp_apply]
            refine congrArg₂ _ (by omega) ?_
            have harg : start + st + j * st = start + (j + 1) * st := by ring_nf
            rw [harg]
          · intro j hj
            cases j with
            | zero =>
              simp only [Nat.zero_mul, Nat.add_zero]
              omega
            | succ j =>
              have hj2 := hend j (by omega)
              have harg : start + st + j * st = start + (j + 1) * st := by ring
              omega
          · intro j hj
            cases j with
            | zero =>
              rw [window_length] at h2
              simp only [Nat.zero_mul, Nat.add_zero]
              omega
            | succ j =>
              have hj2 := hmin j (by omega)
              have harg : start + st + j * st = start + (j + 1) * st := by ring
              omega
    · exact ⟨0, by simp [pageWindowsFuel_stop _ _ _ _ _ _ h1], by omega, by omega⟩

/-! ## `embedder.py` — batched embedding client

The TEI server is the external collaborator: `server` maps one batch of
input strings to the response vectors (the JSON array of arrays); vectors
are opaque (`β`).  `embed_texts` prepends the task prefix to every text,
slices the prefixed list into batches of `batch_size`, issues one request
per batch, and extends `all_embeddings` with each response in order. -/

def embed_texts (server : List String → List β) (batch_size : Nat)
    (texts : List String) (pre : String) : List β :=
  let prefixed_texts := texts.map (fun text => pre ++ text)
  ((sliceBatches prefixed_texts batch_size).map server).flatten

/-- The sequence of per-request input lists that `embed_texts` posts to the
server's `/embed` endpoint, in order. -/
def embed_requests (batch_size : Nat) (texts : List String) (pre : String) :
    List (List String) :=
  sliceBatches (texts.map (fun text => pre ++ text)) batch_size

/-! ## Decimal rendering of naturals

Python renders `chunk_index` (a nonnegative `int`) in decimal inside the
f-strings `f"{content_hash}_{chunk_index}"` and `f"[{i}] (Page {p}): ..."`.
`natDecimal` is that rendering (fuelled so that it reduces in the kernel;
`n + 1` digits always suffice). -/

def natDigitsLEFuel : Nat → Nat → List Nat
  | 0, _ => []
  | fuel + 1, n => if n < 10 then [n] else n % 10 :: natDigitsLEFuel fuel (n / 10)

/-- Little-endian decimal digits of `n`. -/
def natDigitsLE (n : Nat) : List Nat := natDigitsLEFuel (n + 1) n

/-- Decimal rendering of a natural number (`hexDigit` is the identity on
decimal digits). -/
def natDecimal (n : Nat) : String := ⟨(natDigitsLE n).reverse.map hexDigit⟩

/-! ## `vector_store.py` — deterministic point ids and batched upsert -/

/-- The name string hashed into a point id:
`f"{chunk.metadata['content_hash']}_{chunk.metadata['chunk_index']}"`. -/
def point_name (content_hash : String) (chunk_index : Nat) : String :=
  content_hash ++ "_" ++ natDecimal chunk_index

/-- Model of `str(uuid.uuid5(uuid.NAMESPACE_URL, f"{content_hash}_{chunk_index}"))`,
the deterministic id under which `upsert_chunks` stores a chunk. -/
def point_id (content_hash : String) (chunk_index : Nat) : String :=
  uuid5 NAMESPACE_URL (point_name content_hash chunk_index)

/-- A Qdrant `PointStruct`.  The payload `{**chunk.metadata, "text": chunk.text}`
carries exactly the fields of `Chunk`. -/
structure PointStruct (β : Type) where
  id : String
  vector : β
  payload : Chunk
deriving DecidableEq, Repr

/-- Model of `upsert_chunks`: fail with `ValueError` on a chunk/embedding count
mismatch before building any point; otherwise build one point per
chunk/embedding pair and send the points in upsert batches of 100.  The
result models the effect trace: `Except.error` is the raised `ValueError`
(no network call), `Except.ok` lists the successive `client.upsert` batch
calls. -/
def upsert_chunks (chunks : List Chunk) (embeddings : List β) :
    Except String (List (List (PointStruct β))) :=
  if chunks.length ≠ embeddings.length then
    Except.error ("Mismatch: " ++ natDecimal chunks.length ++ " chunks but " ++
      natDecimal embeddings.length ++ " embeddings")
  else
    let points := (chunks.zip embeddings).map (fun ce =>
      { id := point_id ce.1.content_hash ce.1.chunk_index
        vector := ce.2
        payload := ce.1 })
    Except.ok (sliceBatches points 100)

/-- The batched upsert requests actually issued to Qdrant: none when the
call raises before reaching the network. -/
def issued_upserts (r : Except String (List (List (PointStruct β)))) :
    List (List (PointStruct β)) :=
  match r with
  | Except.error _ => []
  | Except.ok batches => batches

/-! ## `rag_pipeline.py` — prompt assembly and query orchestration -/

/-- A chat message in OpenAI format (`{"role": ..., "content": ...}`). -/
structure ChatMessage where
  role : String
  content : String
deriving DecidableEq, Repr

/-- A caller-supplied history entry: a loosely-typed mapping whose `role` /
`content` keys may be absent (`msg.get(...)` in the source). -/
structure HistoryEntry where
  role : Option String
  content : Option String
deriving DecidableEq, Repr

/-- The payload of a Qdrant search result; keys are read with
`payload.get(key, default)`, so each may be absent. -/
structure QueryPayload where
  page_number : Option Nat
  source : Option String
  text : Option String
deriving DecidableEq, Repr

/-- A Qdrant `ScoredPoint` (similarity scores are opaque: `σ`). -/
structure ScoredPoint (σ : Type) where
  payload : QueryPayload
  score : σ
deriving DecidableEq, Repr

/-- Modelled from the spec: the `models.py` module defining the `Source`
response record is not in the sources; §3 specifies a Retrieval Result as
`text`, `page_number`, `source`, `score`. -/
structure Source (σ : Type) where
  text : String
  page_number : Nat
  source : String
  score : σ
deriving DecidableEq, Repr

/-- The fixed system instruction of `build_prompt`. -/
def system_prompt : String :=
  "You are a helpful assistant that answers questions based on the provided context. Always cite which page numbers your answer comes from. If the context doesn't contain enough information to answer the question, say so honestly. Do not make up information that is not supported by the context."

/-- Rendering `f"{page_num}"` where `page_num = chunk.payload.get("page_number", "unknown")`. -/
def pageNumStr (p : Option Nat) : String :=
  match p with
  | some n => natDecimal n
  | none => "unknown"

/-- One formatted context block: `f"[{i}] (Page {page_num}): {chunk_text}"`. -/
def contextPart (i : Nat) (chunk : ScoredPoint σ) : String :=
  "[" ++ natDecimal i ++ "] (Page " ++ pageNumStr chunk.payload.page_number ++ "): " ++
    chunk.payload.text.getD ""

/-- The history block appended by `build_prompt`: each entry in order, with
`msg.get("role", "user")` and `msg.get("content", "")`.  (For `history` equal
to `None` or the empty list the Python `if history:` guard appends nothing,
which coincides with mapping over the empty list.) -/
def historyMessages (history : Option (List HistoryEntry)) : List ChatMessage :=
  match history with
  | some h => h.map (fun msg => ⟨msg.role.getD "user", msg.content.getD ""⟩)
  | none => []

/-- The synthesized final user message of `build_prompt`: numbered context
blocks joined by blank lines, the question, and the citation reminder. -/
def userMessage (question : String) (context_chunks : List (ScoredPoint σ)) : String :=
  let context_parts := context_chunks.enum.map (fun p => contextPart (p.1 + 1) p.2)
  let context_text := String.intercalate "\n\n" context_parts
  "Context:\n" ++ context_text ++ "\n\nQuestion: " ++ question ++
    "\n\nAnswer based on the context above. Cite page numbers."

/-- Model of `build_prompt`: system instruction, then the history in order, then the
synthesized user message. -/
def build_prompt (question : String) (context_chunks : List (ScoredPoint σ))
    (history : Option (List HistoryEntry)) : List ChatMessage :=
  (⟨"system", system_prompt⟩ : ChatMessage) ::
    historyMessages history ++ [⟨"user", userMessage question context_chunks⟩]

/-- Model of `RAGPipeline.query`: embed → search → build_prompt → generate → package.
The three collaborators (TEI embedding call, Qdrant `query_points`, vLLM
chat completion) and Python's `round(·, 4)` are explicit parameters; query
embeddings (`ε`) and scores (`σ`) are opaque. -/
def query (embed_question : String → ε)
    (search_qdrant : ε → Nat → List (ScoredPoint σ))
    (generate_answer : List ChatMessage → String)
    (round4 : σ → σ) (rag_top_k : Nat)
    (question : String) (history : Option (List HistoryEntry)) :
    String × List (Source σ) :=
  let query_embedding := embed_question question
  let search_results := search_qdrant query_embedding rag_top_k
  let messages := build_prompt question search_results history
  let answer := generate_answer messages
  let sources := search_results.map (fun result =>
    { text := result.payload.text.getD ""
      page_number := result.payload.page_number.getD 0
      source := result.payload.source.getD "unknown"
      score := round4 result.score })
  (answer, sources)

/-! ## `main.py` — endpoints

Responses are modelled as `Except (Nat × String) body`: `Except.error` is a
raised `HTTPException (status_code, detail)`. -/

/-- What the `/chat` handler needs from the global `RAGPipeline` instance. -/
structure RAGPipelineHandle where
  vllm_model : String
deriving DecidableEq, Repr

/-- The module-level state of `main.py`: the global `pipeline` variable,
`None` until the lifespan startup constructs the pipeline. -/
structure AppState where
  pipeline : Option RAGPipelineHandle
deriving DecidableEq, Repr

/-- Model of `GET /health`: returns `{"status": "healthy"}` (the body modelled by its
`status` value); the handler never consults the pipeline state. -/
def health (_st : AppState) : Except (Nat × String) String :=
  Except.ok "healthy"

/-- The `/chat` response body. -/
structure ChatResponse (σ : Type) where
  answer : String
  sources : List (Source σ)
  model : String
  chunks_retrieved : Nat
deriving DecidableEq, Repr

/-- Model of `POST /chat`: 503 while the global pipeline is `None`; otherwise run
`pipeline.query` (`run_query`, which may raise — `Except.error` — on
downstream failures, mapped to a 500) and package the `ChatResponse`. -/
def chat (st : AppState)
    (run_query : RAGPipelineHandle → Except String (String × List (Source σ))) :
    Except (Nat × String) (ChatResponse σ) :=
  match st.pipeline with
  | none =>
    Except.error (503, "RAG pipeline not initialized. The server may still be starting up.")
  | some pipeline =>
    match run_query pipeline with
    | Except.error e => Except.error (500, e)
    | Except.ok (answer, sources) =>
      Except.ok { answer := answer, sources := sources, model := pipeline.vllm_model,
                  chunks_retrieved := sources.length }

/-! ## Helper lemmas: decimal rendering -/

theorem natDigitsLEFuel_congr :
    ∀ (f1 f2 n : Nat), n < f1 → n < f2 →
      natDigitsLEFuel f1 n = natDigitsLEFuel f2 n := by
  intro f1
  induction f1 with
  | zero => intro f2 n h1; exact absurd h1 (Nat.not_lt_zero n)
  | succ f1 ih =>
    intro f2 n h1 h2
    match f2, h2 with
    | f2 + 1, _ =>
      simp only [natDigitsLEFuel]
      by_cases h : n < 10
      · simp [h]
      · have hself : n / 10 < n := Nat.div_lt_self (by omega) (by omega)
        rw [if_neg h, if_neg h, ih f2 (n / 10) (by omega) (by omega)]

/-- Little-endian digit value: `digitsVal [d0, d1, …] = d0 + 10·d1 + …`. -/
def digitsVal (ds : List Nat) : Nat := ds.foldr (fun d acc => d + 10 * acc) 0

theorem digitsVal_natDigitsLEFuel :
    ∀ (fuel n : Nat), n < fuel → digitsVal (natDigitsLEFuel fuel n) = n := by
  intro fuel
  induction fuel with
  | zero => intro n h; exact absurd h (Nat.not_lt_zero n)
  | succ fuel ih =>
    intro n h
    simp only [natDigitsLEFuel]
    by_cases h10 : n < 10
    · simp [h10, digitsVal]
    · have hself : n / 10 < n := Nat.div_lt_self (by omega) (by omega)
      rw [if_neg h10]
      have hrec := ih (n / 10) (by omega)
      simp only [digitsVal, List.foldr_cons] at hrec ⊢
      rw [hrec]
      omega

theorem natDigitsLE_inj (m n : Nat) (h : natDigitsLE m = natDigitsLE n) : m = n := by
  have h1 := digitsVal_natDigitsLEFuel (m + 1) m (by omega)
  have h2 := digitsVal_natDigitsLEFuel (n + 1) n (by omega)
  simp only [natDigitsLE] at h
  rw [← h1, ← h2, h]

theorem natDigitsLE_lt_ten :
    ∀ (fuel n : Nat), ∀ d ∈ natDigitsLEFuel fuel n, d < 10 := by
  intro fuel
  induction fuel with
  | zero => intro n d hd; simp [natDigitsLEFuel] at hd
  | succ fuel ih =>
    intro n d hd
    simp only [natDigitsLEFuel] at hd
    by_cases h10 : n < 10
    · rw [if_pos h10] at hd
      simp at hd
      omega
    · rw [if_neg h10] at hd
      rcases List.mem_cons.mp hd with hd | hd
      · subst hd; exact Nat.mod_lt n (by omega)
      · exact ih (n / 10) d hd

theorem hexDigit_inj_fin :
    ∀ a b : Fin 16, hexDigit a.val = hexDigit b.val → a = b := by decide

theorem hexDigit_ne_underscore : ∀ a : Fin 16, hexDigit a.val ≠ '_' := by decide

theorem map_hexDigit_inj :
    ∀ (ds1 ds2 : List Nat), (∀ d ∈ ds1, d < 16) → (∀ d ∈ ds2, d < 16) →
      ds1.map hexDigit = ds2.map hexDigit → ds1 = ds2 := by
  intro ds1
  induction ds1 with
  | nil =>
    intro ds2 _ _ h
    cases ds2 with
    | nil => rfl
    | cons e es => simp at h
  | cons d ds ih =>
    intro ds2 hb1 hb2 h
    cases ds2 with
    | nil => simp at h
    | cons e es =>
      simp only [List.map_cons, List.cons.injEq] at h
      obtain ⟨hh, ht⟩ := h
      have hde : d = e := by
        have hfin := hexDigit_inj_fin ⟨d, hb1 d (by simp)⟩ ⟨e, hb2 e (by simp)⟩ hh
        exact congrArg Fin.val hfin
      subst hde
      rw [ih es (fun x hx => hb1 x (by simp [hx])) (fun x hx => hb2 x (by simp [hx])) ht]

theorem string_data_inj {s t : String} (h : s.data = t.data) : s = t := by
  cases s
  cases t
  exact congrArg String.mk h

theorem natDecimal_inj (m n : Nat) (h : natDecimal m = natDecimal n) : m = n := by
  have hdata : ((natDigitsLE m).reverse.map hexDigit) =
      ((natDigitsLE n).reverse.map hexDigit) := congrArg String.data h
  have hb1 : ∀ d ∈ (natDigitsLE m).reverse, d < 16 := by
    intro d hd
    have := natDigitsLE_lt_ten (m + 1) m d (List.mem_reverse.mp hd)
    omega
  have hb2 : ∀ d ∈ (natDigitsLE n).reverse, d < 16 := by
    intro d hd
    have := natDigitsLE_lt_ten (n + 1) n d (List.mem_reverse.mp hd)
    omega
  have hrev := map_hexDigit_inj _ _ hb1 hb2 hdata
  exact natDigitsLE_inj m n (List.reverse_injective hrev)

theorem underscore_notin_natDecimal (n : Nat) : '_' ∉ (natDecimal n).data := by
  intro hmem
  simp only [natDecimal] at hmem
  rcases List.mem_map.mp hmem with ⟨d, hd, hdu⟩
  have hlt := natDigitsLE_lt_ten (n + 1) n d (List.mem_reverse.mp hd)
  exact hexDigit_ne_underscore ⟨d, by omega⟩ hdu

/-! ## Helper lemmas: splitting at a separator, hex strings -/

/-- If a separator occurs in neither left part, `left ++ sep :: right`
determines both parts. -/
theorem append_sep_inj (sep : α) :
    ∀ (a1 a2 b1 b2 : List α), sep ∉ a1 → sep ∉ a2 →
      a1 ++ sep :: b1 = a2 ++ sep :: b2 → a1 = a2 ∧ b1 = b2 := by
  intro a1
  induction a1 with
  | nil =>
    intro a2 b1 b2 _ h2 h
    cases a2 with
    | nil => simpa using h
    | cons x a2 =>
      simp only [List.nil_append, List.cons_append, List.cons.injEq] at h
      obtain ⟨hx, _⟩ := h
      subst hx
      simp at h2
  | cons x a1 ih =>
    intro a2 b1 b2 h1 h2 h
    cases a2 with
    | nil =>
      simp only [List.cons_append, List.nil_append, List.cons.injEq] at h
      obtain ⟨hx, _⟩ := h
      subst hx
      simp at h1
    | cons y a2 =>
      simp only [List.cons_append, List.cons.injEq] at h
      obtain ⟨hxy, ht⟩ := h
      have hr := ih a2 b1 b2 (fun hm => h1 (List.mem_cons_of_mem x hm))
        (fun hm => h2 (List.mem_cons_of_mem y hm)) ht
      exact ⟨by rw [hxy, hr.1], hr.2⟩

/-- The lowercase hexadecimal alphabet of `hexdigest()` (the 16 values of
`hexDigit`). -/
def hexAlphabet : List Char := (List.range 16).map hexDigit

/-- A string made only of lowercase hex digits (the shape of a stored
`content_hash`). -/
def hexOnly (s : String) : Prop := ∀ c ∈ s.data, c ∈ hexAlphabet

instance (s : String) : Decidable (hexOnly s) := by
  unfold hexOnly
  infer_instance

theorem hexOnly_no_underscore {s : String} (h : hexOnly s) : '_' ∉ s.data := by
  intro hmem
  exact absurd (h _ hmem) (by decide)

theorem hexDigit_mem_hexAlphabet : ∀ d : Fin 16, hexDigit d.val ∈ hexAlphabet := by
  decide

/-- Every `bytesHex` output (so every `sha256Hex` digest) is a hex string. -/
theorem hexOnly_bytesHex (bs : List Nat) : hexOnly (bytesHex bs) := by
  intro c hc
  simp only [bytesHex] at hc
  rcases List.mem_flatten.mp hc with ⟨l, hl, hcl⟩
  rcases List.mem_map.mp hl with ⟨b, _, hb⟩
  subst hb
  simp only [byteHex, List.mem_cons, List.not_mem_nil, or_false] at hcl
  rcases hcl with hcl | hcl
  · exact hcl ▸ hexDigit_mem_hexAlphabet ⟨b / 16 % 16, Nat.mod_lt _ (by omega)⟩
  · exact hcl ▸ hexDigit_mem_hexAlphabet ⟨b % 16, Nat.mod_lt _ (by omega)⟩

/-- Distinct `(content_hash, chunk_index)` pairs produce distinct uuid5 name
strings, provided the hashes contain no underscore (hex digests never do):
the single separator splits the name unambiguously. -/
theorem point_name_inj (h1 h2 : String) (i1 i2 : Nat)
    (hu1 : '_' ∉ h1.data) (hu2 : '_' ∉ h2.data)
    (hne : (h1, i1) ≠ (h2, i2)) : point_name h1 i1 ≠ point_name h2 i2 := by
  intro heq
  have hdata : h1.data ++ '_' :: (natDecimal i1).data =
      h2.data ++ '_' :: (natDecimal i2).data := by
    have := congrArg String.data heq
    simpa [point_name, String.data_append] using this
  obtain ⟨hh, hd⟩ := append_sep_inj '_' h1.data h2.data
    (natDecimal i1).data (natDecimal i2).data hu1 hu2 hdata
  apply hne
  rw [string_data_inj hh, natDecimal_inj i1 i2 (string_data_inj hd)]

/-! ## Helper lemmas: the per-page window sequence -/

/-- Specialisation of `pageWindowsFuel_structure` to a whole page
(`start = 0`, `chunk_index = 0`). -/
theorem chunk_page_windows_structure (t : List α) (cs st : Nat) :
    ∃ m,
      chunk_page_windows t cs st =
        (List.range m).map (fun j => (j, (t.drop (j * st)).take cs)) ∧
      (∀ j, j + 1 < m → j * st + cs < t.length) ∧
      (∀ j, j < m → 20 ≤ min cs (t.length - j * st)) := by
  obtain ⟨m, hm, hend, hmin⟩ :=
    pageWindowsFuel_structure t cs st (t.length + 1) 0 0
  refine ⟨m, ?_, ?_, ?_⟩
  · rw [chunk_page_windows, hm]
    refine List.map_congr_left ?_
    intro j _
    simp
  · intro j hj
    have := hend j hj
    omega
  · intro j hj
    have := hmin j hj
    omega

theorem chunk_page_windows_get (t : List α) (cs st k m : Nat)
    (hm : chunk_page_windows t cs st =
      (List.range m).map (fun j => (j, (t.drop (j * st)).take cs)))
    (hk : k < (chunk_page_windows t cs st).length) :
    (chunk_page_windows t cs st).get ⟨k, hk⟩ = (k, (t.drop (k * st)).take cs) := by
  have hk2 : k < m := by
    rw [hm] at hk
    simpa using hk
  rw [List.get_eq_getElem]
  simp only [hm, List.getElem_map, List.getElem_range]

/-- Concrete unfolding of the loop for a 1000-token page with
`chunk_size = 512`, `step = 462`: three windows, the last clipped to the
remaining 76 tokens, and the loop `break`s there. -/
theorem chunk_page_windows_1000 (t : List α) (h : t.length = 1000) :
    chunk_page_windows t 512 462 =
      [(0, t.take 512), (1, (t.drop 462).take 512), (2, t.drop 924)] := by
  have hw0 : ¬ ((t.drop 0).take 512).length < 20 := by
    rw [window_length, h]; omega
  have hw1 : ¬ ((t.drop (0 + 462)).take 512).length < 20 := by
    rw [window_length, h]; omega
  have hw2 : ¬ ((t.drop (0 + 462 + 462)).take 512).length < 20 := by
    rw [window_length, h]; omega
  rw [chunk_page_windows, h]
  rw [pageWindowsFuel_emit_cont t 512 462 0 0 1000 (by omega) hw0 (by omega)]
  rw [show (1000 : Nat) = 999 + 1 from rfl]
  rw [pageWindowsFuel_emit_cont t 512 462 (0 + 462) (0 + 1) 999 (by omega) hw1 (by omega)]
  rw [show (999 : Nat) = 998 + 1 from rfl]
  rw [pageWindowsFuel_emit_break t 512 462 (0 + 462 + 462) (0 + 1 + 1) 998
    (by omega) hw2 (by omega)]
  have hlast : (t.drop (0 + 462 + 462)).take 512 = t.drop 924 := by
    apply List.take_of_length_le
    simp [List.length_drop, h]
  rw [hlast]
  norm_num

/-! ## Claim theorems -/

/-- Claim C1 (overlap coverage): for every page and all chunking parameters
with `0 < overlap < chunk_size` (so `step = chunk_size - overlap ≥ 1`), in
the per-page chunk sequence that `chunk_documents` emits, the last `overlap`
tokens of the earlier of two consecutively emitted chunks' windows equal the
first `overlap` tokens of the later one's window. -/
theorem claim_C1_overlap_coverage (t : List α) (chunk_size chunk_overlap : Nat)
    (hov : 0 < chunk_overlap) (hlt : chunk_overlap < chunk_size) (k : Nat)
    (hk : k + 1 < (chunk_page_windows t chunk_size (chunk_size - chunk_overlap)).length) :
    ((chunk_page_windows t chunk_size (chunk_size - chunk_overlap)).get
        ⟨k, Nat.lt_of_succ_lt hk⟩).2.drop
      (((chunk_page_windows t chunk_size (chunk_size - chunk_overlap)).get
        ⟨k, Nat.lt_of_succ_lt hk⟩).2.length - chunk_overlap) =
    ((chunk_page_windows t chunk_size (chunk_size - chunk_overlap)).get
        ⟨k + 1, hk⟩).2.take chunk_overlap := by
  obtain ⟨m, hm, hend, hmin⟩ :=
    chunk_page_windows_structure t chunk_size (chunk_size - chunk_overlap)
  have hlen : (chunk_page_windows t chunk_size (chunk_size - chunk_overlap)).length = m := by
    rw [hm]; simp
  have hkm : k + 1 < m := hlen ▸ hk
  rw [chunk_page_windows_get t _ _ k m hm, chunk_page_windows_get t _ _ (k + 1) m hm]
  have hfull : k * (chunk_size - chunk_overlap) + chunk_size < t.length := hend k hkm
  have hwlen : ((t.drop (k * (chunk_size - chunk_overlap))).take chunk_size).length =
      chunk_size := by
    rw [window_length]; omega
  rw [hwlen, List.drop_take, List.drop_drop,
    show chunk_size - (chunk_size - chunk_overlap) = chunk_overlap from by omega,
    List.take_take, show min chunk_overlap chunk_size = chunk_overlap from by omega]
  have harg : k * (chunk_size - chunk_overlap) + (chunk_size - chunk_overlap) =
      (k + 1) * (chunk_size - chunk_overlap) := by ring
  rw [harg]

/-- Claim C2 (sliding-window scenario): on a single page whose content
encodes to exactly 1000 tokens, `chunk_documents` with `chunk_size = 512`,
`overlap = 50` (so `step = 462`) emits exactly three chunks, whose windows
are the token ranges `[0, 512)`, `[462, 974)` and `[924, 1000)`; the final
window is the 76 remaining tokens, unpadded, and no fourth chunk appears. -/
theorem claim_C2_sliding_window (encode : String → List Nat)
    (decode : List Nat → String) (document : Document)
    (h : (encode document.content).length = 1000) :
    chunk_documents encode decode [document] 512 50 =
      [⟨decode ((encode document.content).take 512), document.page_number,
        document.source, document.content_hash, 0⟩,
       ⟨decode (((encode document.content).drop 462).take 512), document.page_number,
        document.source, document.content_hash, 1⟩,
       ⟨decode ((encode document.content).drop 924), document.page_number,
        document.source, document.content_hash, 2⟩] ∧
    ((encode document.content).drop 924).length = 76 := by
  constructor
  · simp only [chunk_documents, List.map_cons, List.map_nil, List.flatten_cons,
      List.flatten_nil, List.append_nil]
    rw [show (512 : Nat) - 50 = 462 from rfl, chunk_page_windows_1000 _ h]
    simp
  · simp [List.length_drop, h]

/-- Claim C7 (minimum-content threshold and `chunk_index` assignment): per
page, the emitted chunks carry `chunk_index` values `0, 1, …, m − 1` in
order with no gaps (indices increment only on emission), every emitted
window has at least 20 tokens (smaller windows are dropped), and
`chunk_documents` is exactly the per-page window passes with the parent
document's metadata attached. -/
theorem claim_C7_threshold_and_indices (t : List α) (cs st : Nat) :
    (chunk_page_windows t cs st).map Prod.fst =
      List.range (chunk_page_windows t cs st).length ∧
    (∀ c ∈ chunk_page_windows t cs st, 20 ≤ c.2.length) ∧
    (∀ (encode : String → List Nat) (decode : List Nat → String)
        (documents : List Document) (chunk_size chunk_overlap : Nat),
      chunk_documents encode decode documents chunk_size chunk_overlap =
        (documents.map (fun document =>
          (chunk_page_windows (encode document.content) chunk_size
              (chunk_size - chunk_overlap)).map
            (fun c => ⟨decode c.2, document.page_number, document.source,
              document.content_hash, c.1⟩))).flatten) := by
  obtain ⟨m, hm, hend, hmin⟩ := chunk_page_windows_structure t cs st
  refine ⟨?_, ?_, ?_⟩
  · rw [hm]
    simp only [List.map_map, List.length_map, List.length_range]
    show List.map (fun j => j) (List.range m) = List.range m
    simp
  · intro c hc
    rw [hm] at hc
    rcases List.mem_map.mp hc with ⟨j, hj, rfl⟩
    have hj2 : j < m := List.mem_range.mp hj
    have hge := hmin j hj2
    rw [window_length]
    omega
  · intro encode decode documents chunk_size chunk_overlap
    rfl

/-- Concrete instance of C1: a 100-token page, `chunk_size = 30`,
`overlap = 7` (step 23); the first two emitted windows overlap by 7 tokens. -/
theorem claim_C1_witness :
    ((chunk_page_windows (List.range 100) 30 23).get ⟨0, by decide⟩).2.drop
      (((chunk_page_windows (List.range 100) 30 23).get ⟨0, by decide⟩).2.length - 7) =
    ((chunk_page_windows (List.range 100) 30 23).get ⟨1, by decide⟩).2.take 7 :=
  claim_C1_overlap_coverage (List.range 100) 30 7 (by decide) (by decide) 0 (by decide)

/-- Concrete instance of C2: a 1000-token page chunked with the default
parameters. -/
theorem claim_C2_witness :
    chunk_documents (fun _ => List.range 1000) (fun w => natDecimal w.length)
        [⟨"page", 3, "doc.pdf", "hash"⟩] 512 50 =
      [⟨natDecimal 512, 3, "doc.pdf", "hash", 0⟩, ⟨natDecimal 512, 3, "doc.pdf", "hash", 1⟩,
       ⟨natDecimal 76, 3, "doc.pdf", "hash", 2⟩] ∧
    ((List.range 1000).drop 924).length = 76 :=
  claim_C2_sliding_window (fun _ => List.range 1000) (fun w => natDecimal w.length)
    ⟨"page", 3, "doc.pdf", "hash"⟩ (by simp)

/-- Concrete instance of C7 on a 100-token page. -/
theorem claim_C7_witness :
    (chunk_page_windows (List.range 100) 30 23).map Prod.fst =
      List.range (chunk_page_windows (List.range 100) 30 23).length ∧
    20 ≤ ((chunk_page_windows (List.range 100) 30 23).get ⟨0, by decide⟩).2.length :=
  ⟨(claim_C7_threshold_and_indices (List.range 100) 30 23).1,
   (claim_C7_threshold_and_indices (List.range 100) 30 23).2.1 _
     (List.get_mem _ 0 (by decide))⟩

/-- Claim C3 (point-id determinism and distinctness): the stored-point id
built by `upsert_chunks` is the UUIDv5 under `NAMESPACE_URL` of
`"{content_hash}_{chunk_index}"` — a pure function of the pair, so equal
pairs give equal ids — and for hex content hashes (no underscore), distinct
pairs give distinct name strings, hence distinct ids up to a SHA-1 (UUIDv5)
collision. -/
theorem claim_C3_point_ids (β : Type) :
    (∀ h i, point_id h i = uuid5 NAMESPACE_URL (point_name h i)) ∧
    (∀ h1 i1 h2 i2, h1 = h2 → i1 = i2 → point_id h1 i1 = point_id h2 i2) ∧
    (∀ (chunks : List Chunk) (embeddings : List β) batches,
      upsert_chunks chunks embeddings = Except.ok batches →
      ∀ p ∈ batches.flatten,
        p.id = point_id p.payload.content_hash p.payload.chunk_index) ∧
    (∀ h1 i1 h2 i2, hexOnly h1 → hexOnly h2 → (h1, i1) ≠ (h2, i2) →
      point_name h1 i1 ≠ point_name h2 i2) := by
  refine ⟨fun h i => rfl, fun h1 i1 h2 i2 hh hi => by rw [hh, hi], ?_, ?_⟩
  · intro chunks embeddings batches hok p hp
    by_cases hne : chunks.length ≠ embeddings.length
    · rw [upsert_chunks, if_pos hne] at hok
      exact absurd hok (by simp)
    · rw [upsert_chunks, if_neg hne] at hok
      injection hok with hok
      subst hok
      rw [sliceBatches_flatten _ _ (by omega)] at hp
      rcases List.mem_map.mp hp with ⟨ce, _, rfl⟩
      rfl
  · intro h1 i1 h2 i2 hx1 hx2 hne
    exact point_name_inj h1 h2 i1 i2 (hexOnly_no_underscore hx1)
      (hexOnly_no_underscore hx2) hne

/-- Concrete instance of C3: the id is the uuid5 of the name string, and two
hex hashes with different indices or hashes give different names. -/
theorem claim_C3_witness :
    point_id "ab" 0 = uuid5 NAMESPACE_URL (point_name "ab" 0) ∧
    point_name "ab" 0 ≠ point_name "ab" 1 ∧
    point_name "ab" 7 ≠ point_name "cd" 7 :=
  ⟨(claim_C3_point_ids Nat).1 "ab" 0,
   (claim_C3_point_ids Nat).2.2.2 "ab" 0 "ab" 1 (by decide) (by decide) (by decide),
   (claim_C3_point_ids Nat).2.2.2 "ab" 7 "cd" 7 (by decide) (by decide) (by decide)⟩

/-- Claim C4 (embedding batch integrity): `embed_texts` on `N` texts with
batch size `B ≥ 1` issues exactly `⌈N/B⌉` requests whose inputs partition
the prefixed texts in order, each of size at most `B`; assuming the server
embeds each input pointwise in order, the call returns one vector per input
text in input order; and for `N = 0` no request is issued and the result is
empty. -/
theorem claim_C4_batch_integrity (β : Type) (server : List String → List β)
    (f : String → β) (hserver : ∀ b, server b = b.map f)
    (texts : List String) (B : Nat) (hB : 1 ≤ B) (pre : String) :
    (embed_requests B texts pre).length = (texts.length + B - 1) / B ∧
    (embed_requests B texts pre).flatten = texts.map (fun text => pre ++ text) ∧
    (∀ r ∈ embed_requests B texts pre, r.length ≤ B) ∧
    embed_texts server B texts pre = (texts.map (fun text => pre ++ text)).map f ∧
    (embed_texts server B texts pre).length = texts.length ∧
    (texts = [] → embed_requests B texts pre = [] ∧
      embed_texts server B texts pre = []) := by
  have hB0 : B ≠ 0 := by omega
  have hmain : embed_texts server B texts pre =
      (texts.map (fun text => pre ++ text)).map f := by
    simp only [embed_texts]
    rw [List.map_congr_left
        (fun b _ => hserver b : ∀ b ∈ sliceBatches (texts.map fun text => pre ++ text) B,
          server b = b.map f),
      ← List.map_flatten, sliceBatches_flatten _ _ hB0]
  refine ⟨?_, ?_, ?_, hmain, ?_, ?_⟩
  · rw [embed_requests, sliceBatches_length _ _ hB0, List.length_map]
  · rw [embed_requests, sliceBatches_flatten _ _ hB0]
  · intro r hr
    exact sliceBatches_size_le _ _ r hr
  · rw [hmain]
    simp
  · intro ht
    subst ht
    exact ⟨rfl, by rw [hmain]; rfl⟩

/-- Concrete instance of C4: three texts in batches of two give two requests
and three vectors in order. -/
theorem claim_C4_witness :
    (embed_requests 2 ["a", "bb", "ccc"] "p: ").length = (3 + 2 - 1) / 2 ∧
    embed_texts (fun b => b.map String.length) 2 ["a", "bb", "ccc"] "p: " =
      (["a", "bb", "ccc"].map (fun text => "p: " ++ text)).map String.length :=
  ⟨(claim_C4_batch_integrity Nat (fun b => b.map String.length) String.length
      (fun b => rfl) ["a", "bb", "ccc"] 2 (by decide) "p: ").1,
   (claim_C4_batch_integrity Nat (fun b => b.map String.length) String.length
      (fun b => rfl) ["a", "bb", "ccc"] 2 (by decide) "p: ").2.2.2.1⟩

/-- Claim C5 (upsert length validation): a chunk/embedding count mismatch
makes `upsert_chunks` raise (`Except.error`) before any stored-point record
is built, and no batch upsert request is issued. -/
theorem claim_C5_upsert_validation (β : Type) (chunks : List Chunk)
    (embeddings : List β) (hne : chunks.length ≠ embeddings.length) :
    (∃ msg, upsert_chunks chunks embeddings = Except.error msg) ∧
    issued_upserts (upsert_chunks chunks embeddings) = [] := by
  have herr : upsert_chunks chunks embeddings =
      Except.error ("Mismatch: " ++ natDecimal chunks.length ++ " chunks but " ++
        natDecimal embeddings.length ++ " embeddings") := by
    rw [upsert_chunks, if_pos hne]
  exact ⟨⟨_, herr⟩, by rw [herr]; rfl⟩

/-- Concrete instance of C5: the spec scenario `upsert([c1, c2], [e1])`. -/
theorem claim_C5_witness :
    issued_upserts (upsert_chunks
      [⟨"c1", 1, "doc.pdf", "aa", 0⟩, ⟨"c2", 1, "doc.pdf", "aa", 1⟩]
      ([42] : List Nat)) = [] :=
  (claim_C5_upsert_validation Nat
    [⟨"c1", 1, "doc.pdf", "aa", 0⟩, ⟨"c2", 1, "doc.pdf", "aa", 1⟩]
    [42] (by decide)).2

/-- Claim C6 (prompt assembly structure): `build_prompt` returns exactly
`1 + len(history) + 1` messages — the fixed system instruction, the history
in order, then one user message of numbered page-annotated context blocks
joined by blank lines, the literal question, and the citation reminder —
and with zero search results the prompt is still built (empty context
block) and `query` still reaches generation. -/
theorem claim_C6_prompt_assembly (σ ε : Type) (question : String)
    (context_chunks : List (ScoredPoint σ)) (history : Option (List HistoryEntry)) :
    (build_prompt question context_chunks history).length =
      1 + (historyMessages history).length + 1 ∧
    build_prompt question context_chunks history =
      (⟨"system", system_prompt⟩ : ChatMessage) :: historyMessages history ++
        [⟨"user", userMessage question context_chunks⟩] ∧
    (∀ hmsgs, history = some hmsgs → (historyMessages history).length = hmsgs.length) ∧
    userMessage question context_chunks =
      "Context:\n" ++ String.intercalate "\n\n"
          (context_chunks.enum.map fun p => contextPart (p.1 + 1) p.2) ++
        "\n\nQuestion: " ++ question ++
        "\n\nAnswer based on the context above. Cite page numbers." ∧
    (∀ (embed_question : String → ε)
        (generate_answer : List ChatMessage → String) (round4 : σ → σ) (top_k : Nat),
      query embed_question (fun _ _ => ([] : List (ScoredPoint σ))) generate_answer
          round4 top_k question history =
        (generate_answer (build_prompt question ([] : List (ScoredPoint σ)) history),
          ([] : List (Source σ)))) := by
  refine ⟨?_, rfl, ?_, rfl, ?_⟩
  · have hstep : (build_prompt question context_chunks history).length =
        (historyMessages history).length + 2 := by
      simp [build_prompt]
    omega
  · intro hmsgs hh
    subst hh
    simp [historyMessages]
  · intro embed_question generate_answer round4 top_k
    rfl

/-- Concrete instance of C6: one history message and zero search results
still give a three-message prompt. -/
theorem claim_C6_witness :
    (build_prompt "q" ([] : List (ScoredPoint Nat))
        (some [⟨some "assistant", some "hello"⟩])).length = 3 := by
  rw [(claim_C6_prompt_assembly Nat Nat "q" []
    (some [⟨some "assistant", some "hello"⟩])).1]
  decide

/-- Claim C8 counterexample: before the pipeline is constructed
(`pipeline = None`), `GET /health` still answers `{"status": "healthy"}`
with a success status — not a 503-equivalent. -/
theorem claim_C8_counterexample :
    health { pipeline := none } = Except.ok "healthy" ∧
    (health { pipeline := none }).isOk = true :=
  ⟨rfl, rfl⟩

/-- Claim C8 as amended: `GET /health` answers `{"status": "healthy"}`
unconditionally; it is `POST /chat` that answers 503 before the pipeline is
constructed, and proceeds once it is. -/
theorem claim_C8_amended (σ : Type) (st : AppState)
    (run_query : RAGPipelineHandle → Except String (String × List (Source σ))) :
    health st = Except.ok "healthy" ∧
    (st.pipeline = none →
      chat st run_query = Except.error
        (503, "RAG pipeline not initialized. The server may still be starting up.")) ∧
    (∀ p answer sources, st.pipeline = some p →
      run_query p = Except.ok (answer, sources) →
      chat st run_query =
        Except.ok ⟨answer, sources, p.vllm_model, sources.length⟩) := by
  refine ⟨rfl, ?_, ?_⟩
  · intro hp
    simp [chat, hp]
  · intro p answer sources hp hq
    simp [chat, hp, hq]

/-- Concrete instance of the amended C8: with no pipeline, `/chat` is 503. -/
theorem claim_C8_witness :
    chat { pipeline := none }
        (fun _ => (Except.error "down" :
          Except String (String × List (Source Nat)))) =
      Except.error
        (503, "RAG pipeline not initialized. The server may still be starting up.") :=
  (claim_C8_amended Nat { pipeline := none }
    (fun _ => Except.error "down")).2.1 rfl

/-- Claim C9 (content-hash invariant): a `Document` built with the default
(empty) hash — as `parse_pdf` always does — carries the SHA-256 hex digest
of the UTF-8 encoding of its `content`, and every document produced by
`parse_pdf` satisfies `content_hash = sha256Hex content`. -/
theorem claim_C9_content_hash (content : String) (page_number : Nat)
    (source hash : String) (pdf_filename : String) (pageTexts : List String) :
    (hash = "" →
      (mkDocument content page_number source hash).content_hash =
        sha256Hex (mkDocument content page_number source hash).content) ∧
    (∀ d ∈ parse_pdf pdf_filename pageTexts, d.content_hash = sha256Hex d.content) := by
  constructor
  · intro hh
    subst hh
    simp [mkDocument]
  · intro d hd
    rcases List.mem_filterMap.mp hd with ⟨p, _, hp⟩
    by_cases hempty : p.2.trim = ""
    · rw [if_pos hempty] at hp
      simp at hp
    · rw [if_neg hempty] at hp
      injection hp with hp
      rw [← hp]
      simp [mkDocument]

/-- Concrete instance of C9. -/
theorem claim_C9_witness :
    (mkDocument "hello" 1 "doc.pdf" "").content_hash =
      sha256Hex (mkDocument "hello" 1 "doc.pdf" "").content :=
  (claim_C9_content_hash "hello" 1 "doc.pdf" "" "doc.pdf" []).1 rfl

/-- Claim C10 (implicit, malformed history tolerance): `build_prompt` never
rejects a history entry — a missing `role` becomes `"user"`, a missing
`content` becomes `""`, and the entry is still appended at its position
(positions `1 … len(history)` of the prompt). -/
theorem claim_C10_history_defaults (σ : Type) (question : String)
    (context_chunks : List (ScoredPoint σ)) (hmsgs : List HistoryEntry) :
    ((build_prompt question context_chunks (some hmsgs)).drop 1).take hmsgs.length =
      hmsgs.map (fun msg => ⟨msg.role.getD "user", msg.content.getD ""⟩) ∧
    (build_prompt question context_chunks (some hmsgs)).length = hmsgs.length + 2 ∧
    (∀ entry : HistoryEntry,
      historyMessages (some (entry :: hmsgs)) =
        (⟨entry.role.getD "user", entry.content.getD ""⟩ : ChatMessage) ::
          historyMessages (some hmsgs)) ∧
    historyMessages (some [(⟨none, none⟩ : HistoryEntry)]) = [⟨"user", ""⟩] := by
  refine ⟨?_, ?_, ?_, rfl⟩
  · have key : ∀ (l r : List ChatMessage) (n : Nat), n = l.length →
        (l ++ r).take n = l := by
      intro l r n hn
      subst hn
      exact List.take_left l r
    simp only [build_prompt, historyMessages, List.drop_one, List.tail_cons]
    exact key _ _ _ (by simp)
  · simp [build_prompt, historyMessages]
  · intro entry
    rfl
